import Mathlib

/-!
Verification development for the Simplified Script Executor
(`src/scripts/ScriptCommunicator.ts`: classes `ScriptCommunicator` and
`ScriptResponder`).

Strings are embedded as lists of characters; `jsTrim` and `jsSplit`
model JavaScript `String.prototype.trim` and `String.prototype.split`
with a single-character separator.  Regular-expression compilation and
testing (`new RegExp(p)` / `re.test(m)`) is kept abstract as a field
`compile : Str → Option (Str → Bool)` of the responder: `none` models a
`SyntaxError` thrown by `new RegExp`.
-/

/-- Strings of the modelled program, as lists of characters. -/
abbrev Str := List Char

/-- Conversion from Lean string literals. -/
def str (s : String) : Str := s.toList

/-- JavaScript `String.prototype.trim`: drop whitespace from both ends. -/
def jsTrim (s : Str) : Str :=
  ((s.dropWhile Char.isWhitespace).reverse.dropWhile Char.isWhitespace).reverse

/-- JavaScript `String.prototype.split` with a one-character separator:
the list of maximal separator-free pieces (`"".split(c) = [""]`,
`"a\nb".split('\n') = ["a","b"]`). -/
def jsSplit (c : Char) : Str → List Str
  | [] => [[]]
  | a :: as =>
    if a = c then [] :: jsSplit c as
    else
      match jsSplit c as with
      | [] => [[a]]
      | p :: ps => (a :: p) :: ps

/-!
Responder model (`ScriptResponder`, src/src/scripts/ScriptCommunicator.ts
lines 221-369).  Callback invocations and calls to the run's `resolve`
hook are recorded as an ordered list of events; `logicMessages` is the
`history` field of the dispatch state.
-/

/-- Observable events of one dispatch: invocation of the callback
registered under a non-default key, invocation of the `_default`
callback, and the argumentless `this.resolve()` call made on the
exiting sentinel. -/
inductive REvent where
  | invoke (key : Str) (msg : Str)
  | invokeDefault (msg : Str)
  | resolveEmpty
deriving DecidableEq

/-- Dispatch state: the `logicMessages` history array plus the ordered
log of events emitted so far. -/
structure RState where
  history : List Str
  events : List REvent
deriving DecidableEq

/-- A response-rule table: `keys` is `Object.keys(messageResponses)` in
iteration order (callbacks are identified by their key), and `compile`
models JavaScript regular-expression construction and testing —
`compile k = some test` means `new RegExp(k)` succeeds and
`test m = (new RegExp(k)).test(m)`, while `compile k = none` means
`new RegExp(k)` throws a `SyntaxError`. -/
structure Responder where
  keys : List Str
  compile : Str → Option (Str → Bool)

/-- The reserved exiting sentinel literal (`EXITING_MESSAGE`, line 263). -/
def EXITING_MESSAGE : Str := str "Exiting..."

/-- The reserved fallback key (`'_default'`). -/
def DEFAULT_KEY : Str := str "_default"

/-- Test of `handleExitingMessage` (lines 283-294): the trimmed message
equals the sentinel.  The `this.resolve()` side effect performed in its
body is emitted as the `resolveEmpty` event by `respondOneLine` below. -/
def handleExitingMessage (msg : Str) : Bool :=
  decide (jsTrim msg = EXITING_MESSAGE)

/-- The `for` loop of `handleResponse` (lines 309-330) over the
remaining keys.  Returns the callback invocations performed (in loop
order) and either the final `handled` flag or an error marking the
`SyntaxError` thrown by `new RegExp(currPrompt)`; events preceding the
throw are kept, since those callbacks already ran. -/
def handleResponseLoop (R : Responder) (msg : Str) : List Str → List REvent × Except Unit Bool
  | [] => ([], Except.ok false)
  | k :: ks =>
    if k = DEFAULT_KEY then handleResponseLoop R msg ks
    else
      match R.compile k with
      | none => ([], Except.error ())
      | some test =>
        if test msg = true ∨ jsTrim msg = k then
          match handleResponseLoop R msg ks with
          | (evs, r) => (REvent.invoke k msg :: evs, r.map fun _ => true)
        else handleResponseLoop R msg ks

/-- `handleResponse` (lines 303-333): run the loop over all keys. -/
def handleResponse (R : Responder) (msg : Str) : List REvent × Except Unit Bool :=
  handleResponseLoop R msg R.keys

/-- The match condition of the loop body (line 319), packaged as a
predicate: the compiled regular expression accepts the untrimmed
message, or the trimmed message equals the key literally.  An invalid
key matches nothing (the loop throws before testing it). -/
def keyMatches (R : Responder) (k msg : Str) : Bool :=
  match R.compile k with
  | some test => test msg || decide (jsTrim msg = k)
  | none => false

/-- The single-line body of `respondToMessage` (lines 347-367): sentinel
check first; otherwise `handleResponse`, then the `_default` fallback
when nothing matched; finally `this.logicMessages.push(message)`.  A
`SyntaxError` escaping `handleResponse` skips the push and propagates. -/
def respondOneLine (R : Responder) (msg : Str) (st : RState) : RState × Except Unit Unit :=
  if handleExitingMessage msg then
    (⟨st.history ++ [msg], st.events ++ [REvent.resolveEmpty]⟩, Except.ok ())
  else
    match handleResponse R msg with
    | (evs, Except.error _) => (⟨st.history, st.events ++ evs⟩, Except.error ())
    | (evs, Except.ok handled) =>
      if handled = false ∧ DEFAULT_KEY ∈ R.keys then
        (⟨st.history ++ [msg], st.events ++ evs ++ [REvent.invokeDefault msg]⟩, Except.ok ())
      else
        (⟨st.history ++ [msg], st.events ++ evs⟩, Except.ok ())

/-- Sequential processing of a list of messages by `f`, aborting (and
propagating) on the first exception — the behaviour of both the
`forEach` recursion of line 343 and successive `message` events. -/
def runSeq (f : Str → RState → RState × Except Unit Unit) :
    List Str → RState → RState × Except Unit Unit
  | [], st => (st, Except.ok ())
  | m :: ms, st =>
    match f m st with
    | (st2, Except.error e) => (st2, Except.error e)
    | (st2, Except.ok _) => runSeq f ms st2

/-- `respondToMessage` (lines 341-368).  When the trimmed message
contains an embedded newline it is split and each piece is processed in
order (line 343) and the chunk itself is not pushed; the source recurses
into `respondToMessage` on each piece, which the definition realises as
`runSeq` over `respondOneLine` — the pieces are newline-free, so the
recursive call takes the single-line branch (`respondToMessage_splits`
below proves the fold equals folding `respondToMessage` itself). -/
def respondToMessage (R : Responder) (msg : Str) (st : RState) : RState × Except Unit Unit :=
  if '\n' ∈ jsTrim msg then
    runSeq (respondOneLine R) (jsSplit '\n' (jsTrim msg)) st
  else
    respondOneLine R msg st

/-- The `message` event wiring (lines 166-170): each decoded message
delivered by the subprocess is passed to `responder.respondToMessage`. -/
def deliverMessages (R : Responder) (msgs : List Str) (st : RState) : RState × Except Unit Unit :=
  runSeq (respondToMessage R) msgs st

/-- The logical lines a delivered message contributes to the history:
the split pieces of its trimmed form when it is a multi-line chunk,
otherwise the raw message itself. -/
def linesOf (msg : Str) : List Str :=
  if '\n' ∈ jsTrim msg then jsSplit '\n' (jsTrim msg) else [msg]

/-- A key fires in the loop: it is not the reserved fallback key and
its match condition holds. -/
def loopPred (R : Responder) (msg k : Str) : Bool :=
  !decide (k = DEFAULT_KEY) && keyMatches R k msg

/-- The events emitted by a successful single-line dispatch: one
invocation per matching non-default key in iteration order, followed by
the `_default` invocation exactly when nothing matched and `_default`
is registered. -/
def dispatchEvents (R : Responder) (msg : Str) : List REvent :=
  ((R.keys.filter (loopPred R msg)).map fun k => REvent.invoke k msg)
    ++ (if R.keys.any (loopPred R msg) = false ∧ DEFAULT_KEY ∈ R.keys then
          [REvent.invokeDefault msg]
        else [])

/-- Events of one single-line message: the sentinel's `resolveEmpty`, or
the dispatch events. -/
def lineEvents (R : Responder) (msg : Str) : List REvent :=
  if handleExitingMessage msg then [REvent.resolveEmpty] else dispatchEvents R msg

/-- Events of a sequence of single-line messages, in order. -/
def seqEvents (R : Responder) (ms : List Str) : List REvent :=
  ms.foldr (fun m acc => lineEvents R m ++ acc) []

/-- All logical lines of a sequence of delivered messages, in order. -/
def allLines (msgs : List Str) : List Str :=
  msgs.foldr (fun m acc => linesOf m ++ acc) []

/-- Events of a sequence of delivered messages, in order. -/
def allEvents (R : Responder) (msgs : List Str) : List REvent :=
  msgs.foldr (fun m acc => seqEvents R (linesOf m) ++ acc) []

/-!
Communicator model (`ScriptCommunicator.run`,
src/src/scripts/ScriptCommunicator.ts lines 79-211).

`run` wraps spawning and wiring in an inner `Promise`; the responder and
the error handlers call that promise's `resolve`/`reject`, and JavaScript
promise semantics make the first such call the recorded outcome (later
calls are no-ops).  The `.then` continuation (lines 173-195) and the
`.catch` continuation (lines 196-210) then signal the subprocess and
call the caller's outer `resolve`/`reject`.  The model evaluates those
two continuations as a pure function of:
  - `spawnThrow`: the executor threw synchronously before the local
    variable `interpreter` was assigned (path adjustment or
    `new InterpreterClass` failed), carrying the thrown error;
  - `calls`: the ordered `resolve`/`reject` calls made on the inner
    promise (sentinel success, error events, callback hooks);
  - `terminated`: the value of `interpreter.terminated` when the
    continuation runs;
  - `endErr`: the error, if any, that `interpreter.end` reports to its
    callback while waiting for graceful exit.
The output records the termination signals sent to the subprocess, the
ordered calls made on the outer `resolve`/`reject` (the first of which
is the delivery the caller observes), and whether the `.catch`
continuation itself threw (dereferencing the unassigned `interpreter`
throws a `TypeError` before `reject(err)` is reached).
-/

/-- Opaque success values carried by `resolve(result)`. -/
abbrev Val := Nat

/-- Opaque error values carried by `reject(err)`. -/
abbrev ErrV := Nat

/-- Termination signals sent to the subprocess: `interpreter.end(...)`
(close stdin and await exit, line 178) or `interpreter.kill()`
(line 204). -/
inductive TermSignal where
  | endGraceful
  | kill
deriving DecidableEq

/-- A call made on the inner promise's `resolve` (with an optional
value) or `reject`. -/
inductive InnerCall where
  | res (v : Option Val)
  | rej (e : ErrV)
deriving DecidableEq

/-- A call made on the caller-supplied outer `resolve`/`reject`. -/
inductive Delivery where
  | resolve (v : Option Val)
  | reject (e : ErrV)
deriving DecidableEq

/-- What one run's continuations do: subprocess termination signals in
order, outer `resolve`/`reject` calls in order, and whether the `.catch`
continuation itself threw. -/
structure RunOutput where
  signals : List TermSignal
  deliveries : List Delivery
  catchThrew : Bool
deriving DecidableEq

/-- The recorded outcome of the inner promise: the first settle call
wins (JavaScript promise semantics); `none` when nobody ever settled. -/
def recordedOutcome (calls : List InnerCall) : Option InnerCall :=
  calls.head?

/-- The `.then`/`.catch` continuations of `ScriptCommunicator.run`
(lines 173-210) evaluated on a run's parameters.
  - executor threw before `interpreter` was assigned: the inner promise
    rejects, `.catch` runs, and `if(!interpreter.terminated)` throws a
    `TypeError` on the unassigned variable, so no signal is sent and
    `reject(err)` on line 208 is never reached;
  - inner promise resolved: `.then` runs; if `terminated` is already
    true nothing at all happens (no outer call); otherwise
    `interpreter.end` is invoked and its callback calls `reject(err)`
    when an error is reported and then `resolve(result)` unconditionally;
  - inner promise rejected: `.catch` runs; `interpreter.kill()` unless
    already terminated, then `reject(err)`. -/
def communicatorRun (spawnThrow : Option ErrV) (calls : List InnerCall)
    (terminated : Bool) (endErr : Option ErrV) : RunOutput :=
  match spawnThrow with
  | some _ => ⟨[], [], true⟩
  | none =>
    match recordedOutcome calls with
    | none => ⟨[], [], false⟩
    | some (InnerCall.res v) =>
      if terminated then ⟨[], [], false⟩
      else
        match endErr with
        | some e => ⟨[TermSignal.endGraceful], [Delivery.reject e, Delivery.resolve v], false⟩
        | none => ⟨[TermSignal.endGraceful], [Delivery.resolve v], false⟩
    | some (InnerCall.rej e) =>
      if terminated then ⟨[], [Delivery.reject e], false⟩
      else ⟨[TermSignal.kill], [Delivery.reject e], false⟩

/-- The delivery the caller actually observes: the first call on the
outer promise's `resolve`/`reject` wins (promise semantics). -/
def effectiveDelivery (o : RunOutput) : Option Delivery :=
  o.deliveries.head?

/-!
Theorems.
-/

theorem jsSplit_ne_nil (c : Char) (s : Str) : jsSplit c s ≠ [] := by
  induction s with
  | nil => simp [jsSplit]
  | cons a as ih =>
    simp only [jsSplit]
    by_cases h : a = c
    · simp [h]
    · simp only [h, if_false]
      cases hs : jsSplit c as with
      | nil => simp
      | cons p ps => simp

theorem not_mem_of_mem_jsSplit (c : Char) (s : Str) :
    ∀ p ∈ jsSplit c s, c ∉ p := by
  induction s with
  | nil =>
    intro p hp
    simp [jsSplit] at hp
    simp [hp]
  | cons a as ih =>
    intro p hp
    simp only [jsSplit] at hp
    by_cases h : a = c
    · rw [if_pos h] at hp
      rcases List.mem_cons.mp hp with hp | hp
      · simp [hp]
      · exact ih p hp
    · rw [if_neg h] at hp
      cases hs : jsSplit c as with
      | nil => exact absurd hs (jsSplit_ne_nil c as)
      | cons q qs =>
        rw [hs] at hp
        rcases List.mem_cons.mp hp with hp | hp
        · subst hp
          intro hmem
          rcases List.mem_cons.mp hmem with h1 | h1
          · exact h h1.symm
          · exact ih q (by rw [hs]; exact List.mem_cons_self q qs) h1
        · exact ih p (by rw [hs]; exact List.mem_cons_of_mem q hp)

theorem mem_of_mem_dropWhile {c : Char} {q : Char → Bool} :
    ∀ {s : Str}, c ∈ s.dropWhile q → c ∈ s := by
  intro s
  induction s with
  | nil => intro hc; simp at hc
  | cons a as ih =>
    intro hc
    rw [List.dropWhile_cons] at hc
    by_cases hq : q a = true
    · rw [if_pos hq] at hc
      exact List.mem_cons_of_mem a (ih hc)
    · rw [if_neg hq] at hc
      exact hc

theorem not_mem_jsTrim_of_not_mem {c : Char} {s : Str} (h : c ∉ s) :
    c ∉ jsTrim s := by
  intro hc
  apply h
  unfold jsTrim at hc
  rw [List.mem_reverse] at hc
  have h1 := mem_of_mem_dropWhile hc
  rw [List.mem_reverse] at h1
  exact mem_of_mem_dropWhile h1

/-!
Dispatch lemmas.
-/

theorem loopPred_eq_true {R : Responder} {msg k : Str} :
    loopPred R msg k = true ↔ (k ≠ DEFAULT_KEY ∧ keyMatches R k msg = true) := by
  simp [loopPred]

theorem keyMatches_of_compile {R : Responder} {k : Str} {test : Str → Bool} {msg : Str}
    (h : R.compile k = some test) :
    keyMatches R k msg = true ↔ (test msg = true ∨ jsTrim msg = k) := by
  simp [keyMatches, h]

theorem handleResponseLoop_eq (R : Responder) (msg : Str) :
    ∀ ks : List Str, (∀ k ∈ ks, k ≠ DEFAULT_KEY → (R.compile k).isSome = true) →
      handleResponseLoop R msg ks =
        ((ks.filter (loopPred R msg)).map fun k => REvent.invoke k msg,
          Except.ok (ks.any (loopPred R msg))) := by
  intro ks
  induction ks with
  | nil => intro _; rfl
  | cons k ks ih =>
    intro hc
    have hks : ∀ x ∈ ks, x ≠ DEFAULT_KEY → (R.compile x).isSome = true :=
      fun x hx => hc x (List.mem_cons_of_mem k hx)
    by_cases hd : k = DEFAULT_KEY
    · have hp : loopPred R msg k = false := by simp [loopPred, hd]
      simp only [handleResponseLoop, if_pos hd, List.filter_cons, List.any_cons, hp,
        Bool.false_or, if_neg Bool.false_ne_true]
      exact ih hks
    · have hsome := hc k (List.mem_cons_self k ks) hd
      obtain ⟨test, htest⟩ := Option.isSome_iff_exists.mp hsome
      by_cases hm : test msg = true ∨ jsTrim msg = k
      · have hkm : keyMatches R k msg = true := (keyMatches_of_compile htest).mpr hm
        have hp : loopPred R msg k = true := loopPred_eq_true.mpr ⟨hd, hkm⟩
        simp only [handleResponseLoop, if_neg hd, htest, if_pos hm, ih hks,
          List.filter_cons, List.any_cons, hp, if_pos rfl, List.map_cons, Bool.true_or]
        rfl
      · have hkm : keyMatches R k msg = false := by
          rcases hb : keyMatches R k msg with _ | _
          · rfl
          · exact absurd ((keyMatches_of_compile htest).mp hb) hm
        have hp : loopPred R msg k = false := by simp [loopPred, hkm]
        simp only [handleResponseLoop, if_neg hd, htest, if_neg hm,
          List.filter_cons, List.any_cons, hp, Bool.false_or, if_neg Bool.false_ne_true]
        exact ih hks

theorem respondOneLine_sentinel (R : Responder) (msg : Str) (st : RState)
    (h : jsTrim msg = EXITING_MESSAGE) :
    respondOneLine R msg st =
      (⟨st.history ++ [msg], st.events ++ [REvent.resolveEmpty]⟩, Except.ok ()) := by
  unfold respondOneLine
  rw [if_pos (by simp [handleExitingMessage, h])]

theorem respondOneLine_dispatch (R : Responder) (msg : Str) (st : RState)
    (hc : ∀ k ∈ R.keys, k ≠ DEFAULT_KEY → (R.compile k).isSome = true)
    (hex : jsTrim msg ≠ EXITING_MESSAGE) :
    respondOneLine R msg st =
      (⟨st.history ++ [msg], st.events ++ dispatchEvents R msg⟩, Except.ok ()) := by
  unfold respondOneLine
  rw [if_neg (by simp [handleExitingMessage, hex])]
  rw [handleResponse, handleResponseLoop_eq R msg R.keys hc]
  by_cases hcond : R.keys.any (loopPred R msg) = false ∧ DEFAULT_KEY ∈ R.keys
  · simp only [if_pos hcond, dispatchEvents, if_pos hcond, List.append_assoc]
  · simp only [if_neg hcond, dispatchEvents, if_neg hcond, List.append_nil]

theorem respondOneLine_total (R : Responder) (msg : Str) (st : RState)
    (hc : ∀ k ∈ R.keys, k ≠ DEFAULT_KEY → (R.compile k).isSome = true) :
    respondOneLine R msg st =
      (⟨st.history ++ [msg], st.events ++ lineEvents R msg⟩, Except.ok ()) := by
  by_cases h : jsTrim msg = EXITING_MESSAGE
  · rw [respondOneLine_sentinel R msg st h]
    simp [lineEvents, handleExitingMessage, h]
  · rw [respondOneLine_dispatch R msg st hc h]
    simp [lineEvents, handleExitingMessage, h]

theorem runSeq_respondOneLine (R : Responder)
    (hc : ∀ k ∈ R.keys, k ≠ DEFAULT_KEY → (R.compile k).isSome = true) :
    ∀ (ms : List Str) (st : RState),
      runSeq (respondOneLine R) ms st =
        (⟨st.history ++ ms, st.events ++ seqEvents R ms⟩, Except.ok ()) := by
  intro ms
  induction ms with
  | nil => intro st; simp [runSeq, seqEvents]
  | cons m ms ih =>
    intro st
    simp only [runSeq, respondOneLine_total R m st hc, ih]
    simp [seqEvents, List.append_assoc]

theorem respondToMessage_single (R : Responder) (msg : Str) (st : RState)
    (h : '\n' ∉ jsTrim msg) :
    respondToMessage R msg st = respondOneLine R msg st := by
  unfold respondToMessage
  rw [if_neg h]

theorem runSeq_congrOn (f g : Str → RState → RState × Except Unit Unit) :
    ∀ (ms : List Str), (∀ m ∈ ms, ∀ s, f m s = g m s) →
      ∀ st, runSeq f ms st = runSeq g ms st := by
  intro ms
  induction ms with
  | nil => intro _ st; rfl
  | cons m ms ih =>
    intro h st
    simp only [runSeq, h m (List.mem_cons_self m ms) st]
    cases g m st with
    | mk st2 r =>
      cases r with
      | error e => rfl
      | ok _ => exact ih (fun x hx s => h x (List.mem_cons_of_mem m hx) s) st2

theorem respondToMessage_splits (R : Responder) (msg : Str) (st : RState)
    (h : '\n' ∈ jsTrim msg) :
    respondToMessage R msg st =
      runSeq (respondToMessage R) (jsSplit '\n' (jsTrim msg)) st := by
  unfold respondToMessage
  rw [if_pos h]
  apply runSeq_congrOn
  intro p hp s
  have hp1 : '\n' ∉ p := not_mem_of_mem_jsSplit '\n' (jsTrim msg) p hp
  have hp2 : '\n' ∉ jsTrim p := not_mem_jsTrim_of_not_mem hp1
  exact (respondToMessage_single R p s hp2).symm

theorem respondToMessage_total (R : Responder) (msg : Str) (st : RState)
    (hc : ∀ k ∈ R.keys, k ≠ DEFAULT_KEY → (R.compile k).isSome = true) :
    respondToMessage R msg st =
      (⟨st.history ++ linesOf msg, st.events ++ seqEvents R (linesOf msg)⟩, Except.ok ()) := by
  by_cases h : '\n' ∈ jsTrim msg
  · rw [respondToMessage_splits R msg st h]
    have hps : ∀ p ∈ jsSplit '\n' (jsTrim msg), ∀ s, respondToMessage R p s = respondOneLine R p s := by
      intro p hp s
      exact respondToMessage_single R p s
        (not_mem_jsTrim_of_not_mem (not_mem_of_mem_jsSplit '\n' (jsTrim msg) p hp))
    rw [runSeq_congrOn (respondToMessage R) (respondOneLine R) (jsSplit '\n' (jsTrim msg)) hps st]
    rw [runSeq_respondOneLine R hc]
    simp [linesOf, h]
  · rw [respondToMessage_single R msg st h, respondOneLine_total R msg st hc]
    simp [linesOf, h, seqEvents]

theorem deliverMessages_eq (R : Responder)
    (hc : ∀ k ∈ R.keys, k ≠ DEFAULT_KEY → (R.compile k).isSome = true) :
    ∀ (msgs : List Str) (st : RState),
      deliverMessages R msgs st =
        (⟨st.history ++ allLines msgs, st.events ++ allEvents R msgs⟩, Except.ok ()) := by
  intro msgs
  induction msgs with
  | nil => intro st; simp [deliverMessages, runSeq, allLines, allEvents]
  | cons m ms ih =>
    intro st
    simp only [deliverMessages, runSeq, respondToMessage_total R m st hc]
    have := ih ⟨st.history ++ linesOf m, st.events ++ seqEvents R (linesOf m)⟩
    simp only [deliverMessages] at this
    rw [this]
    simp [allLines, allEvents, List.append_assoc]

theorem count_invoke_map (k msg : Str) :
    ∀ ks : List Str,
      ((ks.map fun x => REvent.invoke x msg).count (REvent.invoke k msg)) = ks.count k := by
  intro ks
  induction ks with
  | nil => simp
  | cons x xs ih => simp [List.count_cons, ih, REvent.invoke.injEq]

theorem count_filter_nodup (p : Str → Bool) (k : Str) :
    ∀ ks : List Str, ks.Nodup →
      (ks.filter p).count k = if k ∈ ks ∧ p k = true then 1 else 0 := by
  intro ks
  induction ks with
  | nil => intro _; simp
  | cons x xs ih =>
    intro hnd
    obtain ⟨hx, hxs⟩ := List.nodup_cons.mp hnd
    rw [List.filter_cons]
    by_cases hpx : p x = true
    · rw [if_pos hpx]
      by_cases hk : k = x
      · subst hk
        have hnotin : ¬ (k ∈ xs ∧ p k = true) := fun h => hx h.1
        rw [List.count_cons, ih hxs, if_neg hnotin]
        simp [hpx]
      · rw [List.count_cons, ih hxs]
        have : (k ∈ x :: xs ∧ p k = true) ↔ (k ∈ xs ∧ p k = true) := by
          constructor
          · rintro ⟨hm, hp2⟩
            rcases List.mem_cons.mp hm with h1 | h1
            · exact absurd h1 hk
            · exact ⟨h1, hp2⟩
          · rintro ⟨hm, hp2⟩
            exact ⟨List.mem_cons_of_mem x hm, hp2⟩
        rw [if_congr this rfl rfl]
        simp [Ne.symm hk, beq_iff_eq, hk]
    · rw [if_neg hpx]
      rw [ih hxs]
      have : (k ∈ x :: xs ∧ p k = true) ↔ (k ∈ xs ∧ p k = true) := by
        constructor
        · rintro ⟨hm, hp2⟩
          rcases List.mem_cons.mp hm with h1 | h1
          · subst h1; exact absurd hp2 hpx
          · exact ⟨h1, hp2⟩
        · rintro ⟨hm, hp2⟩
          exact ⟨List.mem_cons_of_mem x hm, hp2⟩
      rw [if_congr this rfl rfl]

theorem handleResponseLoop_error (R : Responder) (msg : Str) (bad : Str) (ks2 : List Str)
    (hbd : bad ≠ DEFAULT_KEY) (hbc : R.compile bad = none) :
    ∀ ks1 : List Str, (∀ k ∈ ks1, k ≠ DEFAULT_KEY → (R.compile k).isSome = true) →
      handleResponseLoop R msg (ks1 ++ bad :: ks2) =
        ((ks1.filter (loopPred R msg)).map fun k => REvent.invoke k msg,
          Except.error ()) := by
  intro ks1
  induction ks1 with
  | nil =>
    intro _
    simp only [List.nil_append, handleResponseLoop, if_neg hbd, hbc, List.filter_nil,
      List.map_nil]
  | cons k ks ih =>
    intro hc
    have hks : ∀ x ∈ ks, x ≠ DEFAULT_KEY → (R.compile x).isSome = true :=
      fun x hx => hc x (List.mem_cons_of_mem k hx)
    rw [List.cons_append]
    by_cases hd : k = DEFAULT_KEY
    · have hp : loopPred R msg k = false := by simp [loopPred, hd]
      simp only [handleResponseLoop, if_pos hd, List.filter_cons, hp,
        if_neg Bool.false_ne_true, List.append_eq]
      exact ih hks
    · have hsome := hc k (List.mem_cons_self k ks) hd
      obtain ⟨test, htest⟩ := Option.isSome_iff_exists.mp hsome
      by_cases hm : test msg = true ∨ jsTrim msg = k
      · have hkm : keyMatches R k msg = true := (keyMatches_of_compile htest).mpr hm
        have hp : loopPred R msg k = true := loopPred_eq_true.mpr ⟨hd, hkm⟩
        simp only [handleResponseLoop, if_neg hd, htest, if_pos hm, List.append_eq,
          ih hks, List.filter_cons, hp, if_pos rfl, List.map_cons]
        rfl
      · have hkm : keyMatches R k msg = false := by
          rcases hb : keyMatches R k msg with _ | _
          · rfl
          · exact absurd ((keyMatches_of_compile htest).mp hb) hm
        have hp : loopPred R msg k = false := by simp [loopPred, hkm]
        simp only [handleResponseLoop, if_neg hd, htest, if_neg hm, List.append_eq,
          List.filter_cons, hp, if_neg Bool.false_ne_true]
        exact ih hks

theorem respondOneLine_error (R : Responder) (msg : Str) (st : RState)
    (bad : Str) (ks1 ks2 : List Str) (hkeys : R.keys = ks1 ++ bad :: ks2)
    (hbd : bad ≠ DEFAULT_KEY) (hbc : R.compile bad = none)
    (hc1 : ∀ k ∈ ks1, k ≠ DEFAULT_KEY → (R.compile k).isSome = true)
    (hex : jsTrim msg ≠ EXITING_MESSAGE) :
    respondOneLine R msg st =
      (⟨st.history,
        st.events ++ (ks1.filter (loopPred R msg)).map fun k => REvent.invoke k msg⟩,
       Except.error ()) := by
  unfold respondOneLine
  rw [if_neg (by simp [handleExitingMessage, hex])]
  rw [handleResponse, hkeys, handleResponseLoop_error R msg bad ks2 hbd hbc ks1 hc1]

theorem any_loopPred_false_iff {R : Responder} {msg : Str} :
    R.keys.any (loopPred R msg) = false ↔
      (∀ k ∈ R.keys, k ≠ DEFAULT_KEY → keyMatches R k msg = false) := by
  rw [← Bool.not_eq_true, List.any_eq_true]
  constructor
  · intro h k hk hkd
    rcases hb : keyMatches R k msg with _ | _
    · rfl
    · exact absurd ⟨k, hk, loopPred_eq_true.mpr ⟨hkd, hb⟩⟩ h
  · rintro h ⟨k, hk, hp⟩
    obtain ⟨hkd, hkm⟩ := loopPred_eq_true.mp hp
    rw [h k hk hkd] at hkm
    exact Bool.false_ne_true hkm

theorem lineEvents_default_only (R : Responder) (p : Str)
    (hex : jsTrim p ≠ EXITING_MESSAGE) (hdef : DEFAULT_KEY ∈ R.keys)
    (hnone : ∀ k ∈ R.keys, k ≠ DEFAULT_KEY → keyMatches R k p = false) :
    lineEvents R p = [REvent.invokeDefault p] := by
  rw [lineEvents, if_neg (by simp [handleExitingMessage, hex]), dispatchEvents]
  have hfil : R.keys.filter (loopPred R p) = [] := by
    rw [List.filter_eq_nil_iff]
    intro k hk
    by_cases hd : k = DEFAULT_KEY
    · simp [loopPred, hd]
    · simp [loopPred, hd, hnone k hk hd]
  rw [hfil, if_pos ⟨any_loopPred_false_iff.mpr hnone, hdef⟩]
  simp

/-!
Claim theorems.
-/

/-- C2: for every message whose trimmed form exactly equals the exiting
sentinel literal, `respondToMessage` calls the run's `resolve` with no
argument (the `resolveEmpty` event) and invokes no non-default pattern
callback and no `_default` callback for that message; the raw message is
still appended to the history. -/
theorem sentinel_records_success_only (R : Responder) (msg : Str) (st : RState)
    (h : jsTrim msg = EXITING_MESSAGE) :
    respondToMessage R msg st =
      (⟨st.history ++ [msg], st.events ++ [REvent.resolveEmpty]⟩, Except.ok ()) := by
  have hnl : '\n' ∉ jsTrim msg := by rw [h]; decide
  rw [respondToMessage_single R msg st hnl]
  exact respondOneLine_sentinel R msg st h

/-- Witness for `sentinel_records_success_only` at a concrete input. -/
theorem sentinel_records_success_only_witness :
    respondToMessage ⟨[str "_default"], fun _ => some fun _ => false⟩
        (str "  Exiting...  ") ⟨[], []⟩ =
      (⟨[str "  Exiting...  "], [REvent.resolveEmpty]⟩, Except.ok ()) :=
  sentinel_records_success_only ⟨[str "_default"], fun _ => some fun _ => false⟩
    (str "  Exiting...  ") ⟨[], []⟩ (by decide)

/-- C3: for a single-line non-sentinel message (with a well-formed rule
table: unique keys, all non-default keys valid regular expressions),
every non-default key whose match condition holds has its callback
invoked exactly once, every other key's callback zero times, and the
`_default` callback is invoked exactly once if no non-default key
matched and `_default` is registered, and zero times otherwise. -/
theorem dispatch_fanout_counts (R : Responder) (msg : Str) (hist : List Str)
    (hnl : '\n' ∉ jsTrim msg) (hex : jsTrim msg ≠ EXITING_MESSAGE)
    (hc : ∀ k ∈ R.keys, k ≠ DEFAULT_KEY → (R.compile k).isSome = true)
    (hnd : R.keys.Nodup) :
    (∀ k : Str,
      ((respondToMessage R msg ⟨hist, []⟩).1.events.count (REvent.invoke k msg)) =
        if k ∈ R.keys ∧ k ≠ DEFAULT_KEY ∧ keyMatches R k msg = true then 1 else 0)
    ∧ ((respondToMessage R msg ⟨hist, []⟩).1.events.count (REvent.invokeDefault msg)) =
        if (∀ k ∈ R.keys, k ≠ DEFAULT_KEY → keyMatches R k msg = false) ∧ DEFAULT_KEY ∈ R.keys
        then 1 else 0 := by
  rw [respondToMessage_single R msg _ hnl, respondOneLine_dispatch R msg _ hc hex]
  constructor
  · intro k
    simp only [List.nil_append, dispatchEvents, List.count_append]
    rw [count_invoke_map, count_filter_nodup _ _ _ hnd]
    have hz : (if R.keys.any (loopPred R msg) = false ∧ DEFAULT_KEY ∈ R.keys then
        [REvent.invokeDefault msg] else []).count (REvent.invoke k msg) = 0 := by
      by_cases hcnd : R.keys.any (loopPred R msg) = false ∧ DEFAULT_KEY ∈ R.keys
      · rw [if_pos hcnd]; simp
      · rw [if_neg hcnd]; simp
    rw [hz, Nat.add_zero]
    have : (k ∈ R.keys ∧ loopPred R msg k = true) ↔
        (k ∈ R.keys ∧ k ≠ DEFAULT_KEY ∧ keyMatches R k msg = true) := by
      rw [loopPred_eq_true]
    rw [if_congr this rfl rfl]
  · simp only [List.nil_append, dispatchEvents, List.count_append]
    have hz : ((R.keys.filter (loopPred R msg)).map fun k => REvent.invoke k msg).count
        (REvent.invokeDefault msg) = 0 := by
      rw [List.count_eq_zero]
      intro hmem
      obtain ⟨x, -, hx⟩ := List.mem_map.mp hmem
      exact REvent.noConfusion hx
    rw [hz, Nat.zero_add]
    by_cases hcnd : (∀ k ∈ R.keys, k ≠ DEFAULT_KEY → keyMatches R k msg = false)
        ∧ DEFAULT_KEY ∈ R.keys
    · rw [if_pos ⟨any_loopPred_false_iff.mpr hcnd.1, hcnd.2⟩, if_pos hcnd]
      simp
    · have : ¬ (R.keys.any (loopPred R msg) = false ∧ DEFAULT_KEY ∈ R.keys) := by
        intro h2
        exact hcnd ⟨any_loopPred_false_iff.mp h2.1, h2.2⟩
      rw [if_neg this, if_neg hcnd]
      simp

/-- Witness for `dispatch_fanout_counts`: table with keys `a`, `b`,
`_default` where only `a` matches (literally) the message `a`. -/
theorem dispatch_fanout_counts_witness :
    ((respondToMessage ⟨[str "a", str "b", str "_default"], fun _ => some fun _ => false⟩
        (str "a") ⟨[], []⟩).1.events.count (REvent.invoke (str "a") (str "a")) = 1)
    ∧ ((respondToMessage ⟨[str "a", str "b", str "_default"], fun _ => some fun _ => false⟩
        (str "a") ⟨[], []⟩).1.events.count (REvent.invokeDefault (str "a")) = 0) := by
  have h := dispatch_fanout_counts
    ⟨[str "a", str "b", str "_default"], fun _ => some fun _ => false⟩
    (str "a") [] (by decide) (by decide) (by decide) (by decide)
  refine ⟨?_, ?_⟩
  · have h1 := h.1 (str "a")
    rw [h1, if_pos (by decide)]
  · have h2 := h.2
    rw [h2, if_neg (by decide)]

/-- C8: for a non-default key `k` compiled to the regular-expression
test `t`, the callback registered under `k` is invoked for a
single-line non-sentinel message `m` precisely when the untrimmed `m`
satisfies `t` OR the trimmed `m` equals `k` literally — in particular
every key, exact-string ones included, is always also tested as a
regular expression against the untrimmed message. -/
theorem pattern_match_regex_or_literal (R : Responder) (k msg : Str) (t : Str → Bool)
    (hist : List Str) (hk : k ∈ R.keys) (hkd : k ≠ DEFAULT_KEY)
    (hct : R.compile k = some t)
    (hnl : '\n' ∉ jsTrim msg) (hex : jsTrim msg ≠ EXITING_MESSAGE)
    (hc : ∀ x ∈ R.keys, x ≠ DEFAULT_KEY → (R.compile x).isSome = true) :
    (REvent.invoke k msg ∈ (respondToMessage R msg ⟨hist, []⟩).1.events) ↔
      (t msg = true ∨ jsTrim msg = k) := by
  rw [respondToMessage_single R msg _ hnl, respondOneLine_dispatch R msg _ hc hex]
  simp only [List.nil_append, dispatchEvents, List.mem_append]
  constructor
  · rintro (hmem | hmem)
    · obtain ⟨x, hx, hinv⟩ := List.mem_map.mp hmem
      have hxk : x = k := by
        injection hinv with h1 h2
      subst hxk
      have hp := (List.mem_filter.mp hx).2
      obtain ⟨-, hkm⟩ := loopPred_eq_true.mp hp
      exact (keyMatches_of_compile hct).mp hkm
    · by_cases hcnd : R.keys.any (loopPred R msg) = false ∧ DEFAULT_KEY ∈ R.keys
      · rw [if_pos hcnd] at hmem
        rcases List.mem_singleton.mp hmem with h1
        exact REvent.noConfusion h1
      · rw [if_neg hcnd] at hmem
        exact absurd hmem (List.not_mem_nil _)
  · intro hm
    left
    exact List.mem_map.mpr ⟨k,
      List.mem_filter.mpr ⟨hk,
        loopPred_eq_true.mpr ⟨hkd, (keyMatches_of_compile hct).mpr hm⟩⟩, rfl⟩

/-- Witness for `pattern_match_regex_or_literal`: the key `a!` does not
equal the trimmed message `xa!x` but its regular expression matches the
untrimmed message, so its callback fires. -/
theorem pattern_match_regex_or_literal_witness :
    REvent.invoke (str "a!") (str "xa!x") ∈
      (respondToMessage
        ⟨[str "a!"], fun _ => some fun m => decide (m = str "xa!x")⟩
        (str "xa!x") ⟨[], []⟩).1.events := by
  have h := pattern_match_regex_or_literal
    ⟨[str "a!"], fun _ => some fun m => decide (m = str "xa!x")⟩
    (str "a!") (str "xa!x") (fun m => decide (m = str "xa!x")) []
    (by decide) (by decide) rfl (by decide) (by decide) (by decide)
  exact h.mpr (by decide)

/-- C7: a message whose trimmed form contains an embedded newline is
split into lines that are each processed independently, in order, by
recursion into `respondToMessage` itself (the chunk is never dispatched
or appended); consequently, when `_default` is registered, all keys
compile, and no line is the sentinel or matches any non-default key,
`_default` fires once per line and the history gains exactly the
individual lines, in order. -/
theorem multiline_chunk_split (R : Responder) (msg : Str) (st : RState)
    (h : '\n' ∈ jsTrim msg) :
    (respondToMessage R msg st =
      runSeq (respondToMessage R) (jsSplit '\n' (jsTrim msg)) st)
    ∧ ((∀ k ∈ R.keys, k ≠ DEFAULT_KEY → (R.compile k).isSome = true) →
        DEFAULT_KEY ∈ R.keys →
        (∀ p ∈ jsSplit '\n' (jsTrim msg),
          jsTrim p ≠ EXITING_MESSAGE ∧
            ∀ k ∈ R.keys, k ≠ DEFAULT_KEY → keyMatches R k p = false) →
        respondToMessage R msg st =
          (⟨st.history ++ jsSplit '\n' (jsTrim msg),
            st.events ++ (jsSplit '\n' (jsTrim msg)).map REvent.invokeDefault⟩,
           Except.ok ())) := by
  constructor
  · exact respondToMessage_splits R msg st h
  · intro hc hdef hp
    rw [respondToMessage_total R msg st hc]
    have hlin : linesOf msg = jsSplit '\n' (jsTrim msg) := by rw [linesOf, if_pos h]
    rw [hlin]
    have hev : ∀ ps : List Str,
        (∀ p ∈ ps, jsTrim p ≠ EXITING_MESSAGE ∧
          ∀ k ∈ R.keys, k ≠ DEFAULT_KEY → keyMatches R k p = false) →
        seqEvents R ps = ps.map REvent.invokeDefault := by
      intro ps
      induction ps with
      | nil => intro _; rfl
      | cons q qs ih =>
        intro hq
        obtain ⟨hq1, hq2⟩ := hq q (List.mem_cons_self q qs)
        have : lineEvents R q = [REvent.invokeDefault q] :=
          lineEvents_default_only R q hq1 hdef hq2
        simp only [seqEvents, List.foldr_cons, this]
        have ihq := ih fun x hx => hq x (List.mem_cons_of_mem q hx)
        simp only [seqEvents] at ihq
        rw [ihq]
        rfl
    rw [hev (jsSplit '\n' (jsTrim msg)) hp]

/-- Witness for `multiline_chunk_split` at Scenario B: chunk `foo\nbar`,
no matching rules, `_default` registered — `_default` fires for `foo`
then for `bar`, and the history records the two lines in order. -/
theorem multiline_chunk_split_witness :
    respondToMessage ⟨[str "_default"], fun _ => some fun _ => false⟩
        (str "foo\nbar") ⟨[], []⟩ =
      (⟨[str "foo", str "bar"],
        [REvent.invokeDefault (str "foo"), REvent.invokeDefault (str "bar")]⟩,
       Except.ok ()) := by
  have h := (multiline_chunk_split ⟨[str "_default"], fun _ => some fun _ => false⟩
    (str "foo\nbar") ⟨[], []⟩ (by decide)).2 (by decide) (by decide) (by decide)
  rw [h]
  rfl

/-- C10: when the key table is `ks1 ++ bad :: ks2` with `bad` an invalid
regular expression (and every non-default key before it valid), dispatch
of a single-line non-sentinel message aborts at `bad`: exactly the
matching callbacks among `ks1` have fired, no later callback and no
`_default` runs, the message is NOT appended to the history, and the
exception propagates out of `respondToMessage`. -/
theorem invalid_regex_aborts_dispatch (R : Responder) (msg : Str) (st : RState)
    (bad : Str) (ks1 ks2 : List Str) (hkeys : R.keys = ks1 ++ bad :: ks2)
    (hbd : bad ≠ DEFAULT_KEY) (hbc : R.compile bad = none)
    (hc1 : ∀ k ∈ ks1, k ≠ DEFAULT_KEY → (R.compile k).isSome = true)
    (hnl : '\n' ∉ jsTrim msg) (hex : jsTrim msg ≠ EXITING_MESSAGE) :
    respondToMessage R msg st =
      (⟨st.history,
        st.events ++ (ks1.filter (loopPred R msg)).map fun k => REvent.invoke k msg⟩,
       Except.error ()) := by
  rw [respondToMessage_single R msg st hnl]
  exact respondOneLine_error R msg st bad ks1 ks2 hkeys hbd hbc hc1 hex

/-- Witness for `invalid_regex_aborts_dispatch`: table `a`, `(`, `b`
where `(` fails to compile; on message `a` the callback for `a` fires,
`b` is never reached, and the history stays empty. -/
theorem invalid_regex_aborts_dispatch_witness :
    respondToMessage
        ⟨[str "a", str "(", str "b"],
          fun k => if k = str "(" then none else some fun _ => false⟩
        (str "a") ⟨[], []⟩ =
      (⟨[], [REvent.invoke (str "a") (str "a")]⟩, Except.error ()) := by
  have h := invalid_regex_aborts_dispatch
    ⟨[str "a", str "(", str "b"],
      fun k => if k = str "(" then none else some fun _ => false⟩
    (str "a") ⟨[], []⟩ (str "(") [str "a"] [str "b"]
    rfl (by decide) rfl (by decide) (by decide) (by decide)
  rw [h]
  rfl

/-- C4 counterexample: the claim quantifies over every response-rule
table, but for a table containing the invalid regular-expression key `(`
the delivered message `x` is dropped from the history (dispatch throws
before the push), so the run-end history does not equal the delivered
lines. -/
theorem history_claim_fails_on_invalid_regex_table :
    (deliverMessages
        ⟨[str "("], fun k => if k = str "(" then none else some fun _ => false⟩
        [str "x"] ⟨[], []⟩).1.history ≠ [str "x"] := by
  decide

/-- C4 (amended): for every response-rule table whose non-default keys
all compile as regular expressions, the history is append-only and at
run end equals exactly the logical lines of the delivered messages in
delivery order (no drops, no duplicates), and every single-line message
is appended exactly once, as the final element, by its own dispatch. -/
theorem history_append_only_exact (R : Responder)
    (hc : ∀ k ∈ R.keys, k ≠ DEFAULT_KEY → (R.compile k).isSome = true)
    (msgs : List Str) (st : RState) :
    ((deliverMessages R msgs st).1.history = st.history ++ allLines msgs
      ∧ (deliverMessages R msgs st).2 = Except.ok ())
    ∧ ∀ msg : Str, '\n' ∉ jsTrim msg →
        (respondToMessage R msg st).1.history = st.history ++ [msg] := by
  refine ⟨⟨?_, ?_⟩, ?_⟩
  · rw [deliverMessages_eq R hc msgs st]
  · rw [deliverMessages_eq R hc msgs st]
  · intro msg hnl
    rw [respondToMessage_total R msg st hc]
    simp [linesOf, hnl]

/-- Witness for `history_append_only_exact` at a concrete valid table
and message sequence. -/
theorem history_append_only_exact_witness :
    (deliverMessages ⟨[str "_default"], fun _ => some fun _ => false⟩
        [str "a", str "b"] ⟨[], []⟩).1.history = [str "a", str "b"] := by
  have h := (history_append_only_exact
    ⟨[str "_default"], fun _ => some fun _ => false⟩
    (by decide) [str "a", str "b"] ⟨[], []⟩).1.1
  rw [h]
  rfl

/-- C1: on the path where the success outcome is recorded while the
subprocess has already terminated, `ScriptCommunicator.run` makes no
call at all on the outer `resolve`/`reject` — there is no terminal
delivery and the caller's promise never settles, contradicting the
claimed exactly-one delivery. -/
theorem success_while_terminated_delivers_nothing :
    communicatorRun none [InnerCall.res none] true none = ⟨[], [], false⟩
    ∧ effectiveDelivery (communicatorRun none [InnerCall.res none] true none) = none :=
  ⟨rfl, rfl⟩

/-- C5: with a success recorded and the subprocess not yet terminated,
an error reported while awaiting graceful exit is delivered to the
caller as the run's failure (the first outer call is `reject` with that
error), even though the success `resolve(result)` call is still made
afterwards (a no-op on the already-settled promise). -/
theorem graceful_shutdown_error_overrides (v : Option Val) (e : ErrV)
    (rest : List InnerCall) :
    communicatorRun none (InnerCall.res v :: rest) false (some e) =
      ⟨[TermSignal.endGraceful], [Delivery.reject e, Delivery.resolve v], false⟩
    ∧ effectiveDelivery (communicatorRun none (InnerCall.res v :: rest) false (some e)) =
        some (Delivery.reject e) :=
  ⟨rfl, rfl⟩

/-- C6 counterexample: in the run where the sentinel records success but
the subprocess has already terminated, zero termination signals are
sent, refuting the claim that every run signals termination exactly
once. -/
theorem termination_signal_not_exactly_once :
    ¬ ((communicatorRun none [InnerCall.res none] true none).signals.length = 1) := by
  decide

/-- C6 (amended): the subprocess is signaled to terminate at most once
per run — exactly once when the handle exists, an outcome was recorded
and the subprocess has not already terminated; a signal is only ever
sent after an outcome was recorded; and inner `resolve`/`reject` calls
after the first change neither the outcome nor the signals (promise
settlement is idempotent). -/
theorem termination_signal_at_most_once (spawnThrow : Option ErrV)
    (calls : List InnerCall) (terminated : Bool) (endErr : Option ErrV) :
    (communicatorRun spawnThrow calls terminated endErr).signals.length ≤ 1
    ∧ ((communicatorRun spawnThrow calls terminated endErr).signals ≠ [] →
        spawnThrow = none ∧ calls ≠ [] ∧ terminated = false)
    ∧ (spawnThrow = none → calls ≠ [] → terminated = false →
        (communicatorRun spawnThrow calls terminated endErr).signals.length = 1)
    ∧ (∀ (c : InnerCall) (rest : List InnerCall),
        communicatorRun spawnThrow (c :: rest) terminated endErr =
          communicatorRun spawnThrow [c] terminated endErr) := by
  refine ⟨?_, ?_, ?_, fun c rest => by cases spawnThrow <;> rfl⟩
  all_goals
    cases spawnThrow with
    | some e => simp [communicatorRun]
    | none =>
      cases calls with
      | nil => simp [communicatorRun, recordedOutcome]
      | cons c cs =>
        cases c with
        | res v =>
          cases terminated <;> cases endErr <;>
            simp [communicatorRun, recordedOutcome]
        | rej e2 =>
          cases terminated <;> simp [communicatorRun, recordedOutcome]

/-- Witness for `termination_signal_at_most_once`: a failure outcome
with the subprocess still alive yields exactly one termination signal. -/
theorem termination_signal_at_most_once_witness :
    (communicatorRun none [InnerCall.rej 0] false none).signals.length = 1 :=
  (termination_signal_at_most_once none [InnerCall.rej 0] false none).2.2.1
    rfl (by decide) rfl

/-- C9: when the executor throws before the `interpreter` variable is
assigned (a spawn error during path adjustment or handle construction),
the `.catch` continuation itself throws a `TypeError` dereferencing the
unassigned handle: no termination signal is sent and — contrary to the
claim — the spawn error is never delivered to the caller (no outer
`reject` call is made). -/
theorem spawn_error_catch_rethrows (e : ErrV) (calls : List InnerCall)
    (terminated : Bool) (endErr : Option ErrV) :
    communicatorRun (some e) calls terminated endErr = ⟨[], [], true⟩
    ∧ effectiveDelivery (communicatorRun (some e) calls terminated endErr) = none :=
  ⟨rfl, rfl⟩
